/-
Verification of the Nexarion Emotional State Engine
(src/sentience/modules/emotional_core_enhanced.py).

Shallow embedding: Python floats are modelled as rationals (ℚ), the
mutable `EmotionalCore` object as an explicit record threaded through the
operations, and the wall clock (`time.time()`) as an explicit `now : ℚ`
argument supplied to each operation that creates an impulse.  The random
fluctuation branch of `process_emotional_cycle` is modelled by an explicit
`Option (Fin 4 × ℚ)` argument: `none` means the 10%-probability branch did
not fire, `some (i, t)` means it fired and `random.choice` picked the
`i`-th entry of the fixed vocabulary at time `t`.  File I/O is modelled by
an explicit `LoadInput` value: the file may be missing, unparsable, or
parsed into a record of optional fields (a JSON object with possibly
missing keys).
-/
import Mathlib

set_option linter.unusedVariables false

/-- Python's `abs` on a rational, written as a single sign test. -/
def absQ (x : ℚ) : ℚ := if x < 0 then -x else x

/-- Embeds the `EmergentEmotion` dataclass: name, valence in [-1,1],
arousal in [0,1], dominance in [0,1], the free-text emergence source, the
creation timestamp and the decay rate (defaulted to 0.95 everywhere in the
repository). -/
structure EmergentEmotion where
  name : String
  valence : ℚ
  arousal : ℚ
  dominance : ℚ
  emergence_source : String
  timestamp : ℚ
  decay_rate : ℚ := 0.95
deriving DecidableEq, Repr

/-- Embeds one entry of `EmotionalMemory.emotional_history`
(the dict built by `add_memory`). -/
structure MemEntry where
  name : String
  valence : ℚ
  arousal : ℚ
  source : String
  time : ℚ
deriving DecidableEq, Repr

/-- Embeds the `EmotionalMemory` dataclass. -/
structure EmotionalMemory where
  memory_weight : ℚ := 0.2
  emotional_history : List MemEntry := []
  max_history : ℕ := 100
deriving DecidableEq, Repr

/-- Embeds the mutable state of an `EmotionalCore` instance. -/
structure EmotionalCore where
  current_emotions : List EmergentEmotion
  memory : EmotionalMemory
  garden_complexity : ℚ
  emotional_entropy : ℚ
deriving DecidableEq, Repr

/-- Embeds `EmergentEmotion.update`: blend with inertia 0.3 (retain 30% of the
prior value, take 70% of the new one), then clamp valence to [-1,1] and
arousal to [0,1].  Dominance is untouched. -/
def updateEmo (e : EmergentEmotion) (new_valence new_arousal : ℚ) : EmergentEmotion :=
  let inertia : ℚ := 0.3
  let v := e.valence * inertia + new_valence * (1 - inertia)
  let a := e.arousal * inertia + new_arousal * (1 - inertia)
  { e with valence := max (-1) (min 1 v), arousal := max 0 (min 1 a) }

/-- Embeds `EmergentEmotion.decay`: multiply valence, arousal and dominance by
the emotion's decay rate.  No clamping. -/
def decayEmo (e : EmergentEmotion) : EmergentEmotion :=
  { e with
    valence := e.valence * e.decay_rate
    arousal := e.arousal * e.decay_rate
    dominance := e.dominance * e.decay_rate }

/-- Embeds `EmotionalMemory.add_memory`: append the dict for `e`; if the length
then exceeds `max_history`, pop the oldest (front) entry. -/
def addMemory (m : EmotionalMemory) (e : EmergentEmotion) : EmotionalMemory :=
  let h := m.emotional_history ++
    [⟨e.name, e.valence, e.arousal, e.emergence_source, e.timestamp⟩]
  { m with emotional_history := if m.max_history < h.length then h.tail else h }

/-- Embeds `EmotionalMemory.get_mood_bias`: 0 on empty history, otherwise the
mean valence of the last 10 entries (Python `[-10:]`) scaled by
`memory_weight`. -/
def getMoodBias (m : EmotionalMemory) : ℚ :=
  if m.emotional_history = [] then 0
  else
    let recent := m.emotional_history.drop (m.emotional_history.length - 10)
    if recent = [] then 0
    else ((recent.map (·.valence)).sum / recent.length) * m.memory_weight

/-- The two impulses `_emerge_initial_emotions` installs at construction
time. -/
def initialEmotions (t : ℚ) : List EmergentEmotion :=
  [ ⟨"curiosity", 0.7, 0.6, 0.4, "system_init", t, 0.95⟩,
    ⟨"anxiety", -0.3, 0.4, 0.2, "unknown_capabilities", t, 0.95⟩ ]

/-- Embeds `EmotionalCore.__init__` with the construction-time entropy draw
(`random.uniform(0.1, 0.3)`) passed in explicitly. -/
def mkCore (garden_complexity entropy t : ℚ) : EmotionalCore :=
  { current_emotions := initialEmotions t
    memory := {}
    garden_complexity := garden_complexity
    emotional_entropy := entropy }

/-- The selection score of `get_dominant_emotion`:
`abs(valence) * 0.6 + arousal * 0.4`. -/
def scoreOf (e : EmergentEmotion) : ℚ := absQ e.valence * 0.6 + e.arousal * 0.4

/-- Embeds `EmotionalCore.get_dominant_emotion`: Python `max` with that key,
which returns the first maximal element in list order; `None` on an empty
list. -/
def getDominantEmotion : List EmergentEmotion → Option EmergentEmotion
  | [] => none
  | e :: rest =>
    match getDominantEmotion rest with
    | none => some e
    | some d => if scoreOf e < scoreOf d then some d else some e

/-- The first pass of `_add_or_update_emotion`: walk the list and blend
the first emotion whose name matches, returning the updated list; `none`
if no name matches. -/
def blendFirst : List EmergentEmotion → EmergentEmotion → Option (List EmergentEmotion)
  | [], _ => none
  | e :: rest, n =>
    if e.name = n.name then some (updateEmo e n.valence n.arousal :: rest)
    else (blendFirst rest n).map (e :: ·)

/-- Python `min(current_emotions, key=lambda e: e.arousal)`: the first
element of minimal arousal (ties keep the earlier element). -/
def weakestEmotion : List EmergentEmotion → Option EmergentEmotion
  | [] => none
  | e :: rest =>
    match weakestEmotion rest with
    | none => some e
    | some w => if w.arousal < e.arousal then some w else some e

/-- Embeds `EmotionalCore._add_or_update_emotion`: blend into the first
same-named emotion if one exists; otherwise append, and if the count then
exceeds 5 remove the weakest (first minimal-arousal) emotion. -/
def addOrUpdateEmotion (s : EmotionalCore) (n : EmergentEmotion) : EmotionalCore :=
  match blendFirst s.current_emotions n with
  | some es => { s with current_emotions := es }
  | none =>
    let es := s.current_emotions ++ [n]
    if 5 < es.length then
      match weakestEmotion es with
      | some w => { s with current_emotions := es.erase w }
      | none => { s with current_emotions := es }
    else { s with current_emotions := es }

/-- The "awe" impulse `update_from_garden` creates when complexity
exceeds 0.7. -/
def aweEmotion (t : ℚ) : EmergentEmotion :=
  ⟨"awe", 0.8, 0.7, 0.1, "garden_complexity", t, 0.95⟩

/-- The "joy" impulse `update_from_garden` creates when the bloom count is
positive: intensity `min(blooms * 0.2, 0.9)`, arousal scaled by 0.8. -/
def joyEmotion (blooms : ℤ) (t : ℚ) : EmergentEmotion :=
  let joy_intensity := min ((blooms : ℚ) * 0.2) 0.9
  ⟨"joy", joy_intensity, joy_intensity * 0.8, 0.3,
    "garden_blooms_" ++ toString blooms, t, 0.95⟩

/-- Embeds `EmotionalCore.update_from_garden`. -/
def updateFromGarden (s : EmotionalCore) (complexity : ℚ) (blooms : ℤ) (now : ℚ) :
    EmotionalCore :=
  let s1 := if 0.7 < complexity then addOrUpdateEmotion s (aweEmotion now) else s
  if 0 < blooms then addOrUpdateEmotion s1 (joyEmotion blooms now) else s1

/-- The "contemplation" impulse of `update_from_interaction`. -/
def contemplationEmotion (t : ℚ) : EmergentEmotion :=
  ⟨"contemplation", 0.4, 0.3, 0.5, "neutral_query", t, 0.95⟩

/-- The "engagement" impulse of `update_from_interaction`. -/
def engagementEmotion (t : ℚ) : EmergentEmotion :=
  ⟨"engagement", 0.6, 0.5, 0.4, "positive_interaction", t, 0.95⟩

/-- The "defensive" impulse of `update_from_interaction`. -/
def defensiveEmotion (t : ℚ) : EmergentEmotion :=
  ⟨"defensive", -0.4, 0.6, 0.7, "negative_interaction", t, 0.95⟩

/-- Embeds `EmotionalCore.update_from_interaction`: only `"query"` interactions
do anything; `abs(sentiment) < 0.3` picks contemplation, `sentiment > 0.3`
picks engagement, everything else falls to the defensive branch. -/
def updateFromInteraction (s : EmotionalCore) (interaction_type : String)
    (sentiment : ℚ) (now : ℚ) : EmotionalCore :=
  if interaction_type = "query" then
    let emo :=
      if absQ sentiment < 0.3 then contemplationEmotion now
      else if 0.3 < sentiment then engagementEmotion now
      else defensiveEmotion now
    addOrUpdateEmotion s emo
  else s

/-- The fixed fluctuation vocabulary of `_add_random_fluctuation`. -/
def fluctuationEmotion : Fin 4 → ℚ → EmergentEmotion
  | 0, t => ⟨"whimsy", 0.6, 0.4, 0.2, "random_fluctuation", t, 0.95⟩
  | 1, t => ⟨"melancholy", -0.4, 0.2, 0.1, "random_fluctuation", t, 0.95⟩
  | 2, t => ⟨"excitement", 0.8, 0.9, 0.6, "random_fluctuation", t, 0.95⟩
  | 3, t => ⟨"pensiveness", 0.1, 0.2, 0.3, "random_fluctuation", t, 0.95⟩

/-- The survival test of `process_emotional_cycle`: keep an emotion iff
`abs(valence) > 0.05 or arousal > 0.05`. -/
def isSignificant (e : EmergentEmotion) : Bool :=
  decide (0.05 < absQ e.valence) || decide (0.05 < e.arousal)

/-- Embeds `EmotionalCore.process_emotional_cycle` with the random branch made
explicit: decay every emotion, optionally inject one fluctuation impulse,
record the dominant emotion (if any) in memory, then drop emotions that
are not significant. -/
def processEmotionalCycle (s : EmotionalCore) (fluct : Option (Fin 4 × ℚ)) :
    EmotionalCore :=
  let decayed := { s with current_emotions := s.current_emotions.map decayEmo }
  let s1 :=
    match fluct with
    | some (i, t) => addOrUpdateEmotion decayed (fluctuationEmotion i t)
    | none => decayed
  let s2 :=
    match getDominantEmotion s1.current_emotions with
    | some d => { s1 with memory := addMemory s1.memory d }
    | none => s1
  { s2 with current_emotions := s2.current_emotions.filter isSignificant }

/-- N cycles with the fluctuation branch never firing. -/
def decayCycles : ℕ → EmotionalCore → EmotionalCore
  | 0, s => s
  | n + 1, s => decayCycles n (processEmotionalCycle s none)

/-- One entry of the `emotions` list returned by `get_emotional_state`. -/
structure EmotionView where
  name : String
  valence : ℚ
  arousal : ℚ
  source : String
deriving DecidableEq, Repr

/-- The dict returned by `EmotionalCore.get_emotional_state`. -/
structure EmotionalStateView where
  mood : String
  energy : String
  dominant_emotion : String
  valence_bias : ℚ
  emotional_entropy : ℚ
  active_emotions : ℕ
  emotions : List EmotionView
deriving DecidableEq, Repr

/-- Embeds `EmotionalCore.get_emotional_state`. -/
def getEmotionalState (s : EmotionalCore) : EmotionalStateView :=
  let views := s.current_emotions.map fun e =>
    (⟨e.name, e.valence, e.arousal, e.emergence_source⟩ : EmotionView)
  match getDominantEmotion s.current_emotions with
  | some d =>
    { mood := if 0 < d.valence then "positive" else "negative"
      energy := if 0.6 < d.arousal then "high" else if 0.3 < d.arousal then "medium" else "low"
      dominant_emotion := d.name
      valence_bias := getMoodBias s.memory
      emotional_entropy := s.emotional_entropy
      active_emotions := s.current_emotions.length
      emotions := views }
  | none =>
    { mood := "neutral"
      energy := "low"
      dominant_emotion := "neutral"
      valence_bias := getMoodBias s.memory
      emotional_entropy := s.emotional_entropy
      active_emotions := s.current_emotions.length
      emotions := views }

/-- One emotion record of the persisted JSON file written by
`save_state`. -/
structure SavedEmotion where
  name : String
  valence : ℚ
  arousal : ℚ
  dominance : ℚ
  source : String
  timestamp : ℚ
deriving DecidableEq, Repr

/-- The persisted JSON object written by `save_state`. -/
structure SavedState where
  current_emotions : List SavedEmotion
  memory_history : List MemEntry
  emotional_entropy : ℚ
  saved_at : ℚ
deriving DecidableEq, Repr

/-- The dict `save_state` builds for one emotion. -/
def savedOfEmotion (e : EmergentEmotion) : SavedEmotion :=
  ⟨e.name, e.valence, e.arousal, e.dominance, e.emergence_source, e.timestamp⟩

/-- Embeds `EmotionalCore.save_state` (the file write itself is outside the
model; this is the value serialized).  The history is truncated to its
last 20 entries (Python `[-20:]`). -/
def saveState (s : EmotionalCore) (now : ℚ) : SavedState :=
  { current_emotions := s.current_emotions.map savedOfEmotion
    memory_history := s.memory.emotional_history.drop
      (s.memory.emotional_history.length - 20)
    emotional_entropy := s.emotional_entropy
    saved_at := now }

/-- A parsed emotion record with possibly missing keys (a JSON object
need not contain them all). -/
structure RawEmotion where
  name : Option String
  valence : Option ℚ
  arousal : Option ℚ
  dominance : Option ℚ
  source : Option String
  timestamp : Option ℚ
deriving DecidableEq, Repr

/-- A parsed snapshot file with possibly missing top-level keys. -/
structure RawState where
  current_emotions : Option (List RawEmotion)
  memory_history : Option (List MemEntry)
  emotional_entropy : Option ℚ
  saved_at : Option ℚ
deriving DecidableEq, Repr

/-- What `load_state` finds at the path: no file (`FileNotFoundError`),
an unparsable file (`json.load` raises), or a parsed JSON object. -/
inductive LoadInput where
  | missing
  | corrupt
  | parsed (raw : RawState)
deriving DecidableEq, Repr

/-- Reconstructing one `EmergentEmotion` inside the `load_state` loop:
`name`, `valence`, `arousal`, `source` and `timestamp` are accessed with
`[...]` and raise `KeyError` when missing (`none` here); `dominance` is
read with `.get("dominance", 0.5)`. -/
def readEmotion (r : RawEmotion) : Option EmergentEmotion :=
  match r.name, r.valence, r.arousal, r.source, r.timestamp with
  | some n, some v, some a, some src, some t =>
    some ⟨n, v, a, r.dominance.getD 0.5, src, t, 0.95⟩
  | _, _, _, _, _ => none

/-- The `load_state` restoration loop: emotions are appended one by one;
a `KeyError` aborts the loop (the flag records whether it ran to the
end). -/
def restoreEmotions : List RawEmotion → List EmergentEmotion × Bool
  | [] => ([], true)
  | r :: rest =>
    match readEmotion r with
    | none => ([], false)
    | some e =>
      let p := restoreEmotions rest
      (e :: p.1, p.2)

/-- Embeds `EmotionalCore.load_state`: a missing or unparsable file leaves the
state untouched (the exception is caught before any mutation); on a
parsed file `current_emotions` is cleared and refilled record by record —
if a record raises `KeyError` the loop aborts with the exception caught,
leaving whatever was restored so far and the old memory; only when every
record restores is the memory history replaced.  The entropy field is
never read back. -/
def loadState (s : EmotionalCore) (input : LoadInput) : EmotionalCore :=
  match input with
  | .missing => s
  | .corrupt => s
  | .parsed raw =>
    let p := restoreEmotions (raw.current_emotions.getD [])
    if p.2 then
      { s with
        current_emotions := p.1
        memory := { s.memory with emotional_history := raw.memory_history.getD [] } }
    else { s with current_emotions := p.1 }

/-- One saved emotion record, reparsed (every key present). -/
def rawOfSavedEmotion (se : SavedEmotion) : RawEmotion :=
  ⟨some se.name, some se.valence, some se.arousal, some se.dominance,
    some se.source, some se.timestamp⟩

/-- The JSON object `save_state` writes, reparsed (every key present). -/
def rawOfSaved (f : SavedState) : RawState :=
  { current_emotions := some (f.current_emotions.map rawOfSavedEmotion)
    memory_history := some f.memory_history
    emotional_entropy := some f.emotional_entropy
    saved_at := some f.saved_at }

/-- What one impulse looks like after a save/load round trip: every field
is restored verbatim except `decay_rate`, which falls back to the
constructor default 0.95 (`load_state` never persists or restores it). -/
def reloadEmo (e : EmergentEmotion) : EmergentEmotion :=
  ⟨e.name, e.valence, e.arousal, e.dominance, e.emergence_source,
    e.timestamp, 0.95⟩

/-- The numeric-bounds invariant of the data model: valence in [-1,1],
arousal in [0,1], dominance in [0,1]. -/
def InBounds (e : EmergentEmotion) : Prop :=
  -1 ≤ e.valence ∧ e.valence ≤ 1 ∧ 0 ≤ e.arousal ∧ e.arousal ≤ 1 ∧
    0 ≤ e.dominance ∧ e.dominance ≤ 1

instance (e : EmergentEmotion) : Decidable (InBounds e) := by
  unfold InBounds; exact inferInstance

/-! ### Sample states used by witnesses and counterexamples -/

/-- A freshly constructed core (entropy draw 0.2, clock at 0). -/
def freshA : EmotionalCore := mkCore 0 (1/5) 0

/-- A second freshly constructed core whose entropy draw differs. -/
def freshB : EmotionalCore := mkCore 0 (3/10) 0

/-- A core with no impulses at all. -/
def quietCore : EmotionalCore :=
  { current_emotions := [], memory := {}, garden_complexity := 0,
    emotional_entropy := 1/5 }

/-- The two-impulse scenario of the claim: joy with valence 0.8, arousal
0.7. -/
def joySample : EmergentEmotion := ⟨"joy", 0.8, 0.7, 0, "sample", 0, 0.95⟩

/-- The two-impulse scenario of the claim: fear with valence -0.2, arousal
0.9. -/
def fearSample : EmergentEmotion := ⟨"fear", -0.2, 0.9, 0, "sample", 0, 0.95⟩

/-- A core at full capacity (5 impulses, timestamps increasing, with an
arousal tie between "beta" and "delta"). -/
def fullCore : EmotionalCore :=
  { current_emotions := [
      ⟨"alpha", 0.5, 0.9, 0.5, "w", 0, 0.95⟩,
      ⟨"beta", 0.4, 0.2, 0.5, "w", 1, 0.95⟩,
      ⟨"gamma", 0.3, 0.7, 0.5, "w", 2, 0.95⟩,
      ⟨"delta", 0.2, 0.2, 0.5, "w", 3, 0.95⟩,
      ⟨"eps", 0.1, 0.6, 0.5, "w", 4, 0.95⟩ ],
    memory := {}, garden_complexity := 0, emotional_entropy := 1/5 }

/-- A sixth impulse with a fresh name, pushing `fullCore` past capacity. -/
def sixthEmotion : EmergentEmotion := ⟨"zeta", 0.5, 0.5, 0.5, "w", 5, 0.95⟩

/-- C1 counterexample input: a stimulus whose valence 2 is outside
[-1, 1]. -/
def overflowEmotion : EmergentEmotion := ⟨"overflow", 2, 1/2, 1/2, "w", 0, 0.95⟩

/-- A parsed snapshot whose single emotion record is missing the
`valence` key. -/
def badRaw : RawState :=
  { current_emotions := some [⟨some "x", none, some (1/2), some (1/2),
      some "s", some 0⟩]
    memory_history := some []
    emotional_entropy := some (1/5)
    saved_at := some 0 }

/-- A parsed snapshot with both top-level keys missing. -/
def emptyRaw : RawState := ⟨none, none, none, none⟩

/-! ### General lemmas about the embedded operations -/

theorem absQ_eq_abs (x : ℚ) : absQ x = |x| := by
  unfold absQ
  rcases lt_or_le x 0 with h | h
  · rw [if_pos h, abs_of_neg h]
  · rw [if_neg (not_lt.mpr h), abs_of_nonneg h]

theorem getDominantEmotion_eq_none_iff (es : List EmergentEmotion) :
    getDominantEmotion es = none ↔ es = [] := by
  cases es with
  | nil => simp [getDominantEmotion]
  | cons e rest =>
    simp only [getDominantEmotion]
    constructor
    · intro h
      cases hrest : getDominantEmotion rest with
      | none => rw [hrest] at h; exact absurd h (by simp)
      | some d => rw [hrest] at h; by_cases hs : scoreOf e < scoreOf d <;> simp [hs] at h
    · intro h; exact absurd h (by simp)

theorem getDominantEmotion_mem_and_max (es : List EmergentEmotion) :
    ∀ d, getDominantEmotion es = some d → d ∈ es ∧ ∀ e ∈ es, scoreOf e ≤ scoreOf d := by
  induction es with
  | nil => intro d h; simp [getDominantEmotion] at h
  | cons e rest ih =>
    intro d h
    simp only [getDominantEmotion] at h
    cases hrest : getDominantEmotion rest with
    | none =>
      rw [hrest] at h
      simp only [Option.some.injEq] at h
      subst h
      have hnil : rest = [] := (getDominantEmotion_eq_none_iff rest).mp hrest
      subst hnil
      refine ⟨by simp, ?_⟩
      intro x hx
      simp at hx
      subst hx
      exact le_refl _
    | some d' =>
      rw [hrest] at h
      obtain ⟨hd'mem, hd'max⟩ := ih d' hrest
      by_cases hs : scoreOf e < scoreOf d'
      · simp only [if_pos hs, Option.some.injEq] at h
        subst h
        refine ⟨List.mem_cons_of_mem _ hd'mem, ?_⟩
        intro x hx
        rcases List.mem_cons.mp hx with hx | hx
        · subst hx; exact le_of_lt hs
        · exact hd'max x hx
      · simp only [if_neg hs, Option.some.injEq] at h
        subst h
        refine ⟨List.mem_cons_self _ _, ?_⟩
        intro x hx
        rcases List.mem_cons.mp hx with hx | hx
        · subst hx; exact le_refl _
        · exact le_trans (hd'max x hx) (not_lt.mp hs)

/-! ### C4: dominant-impulse selection -/



/-- C4: `dominantImpulse` (`get_dominant_emotion`) returns `None` iff the
impulse set is empty, otherwise it returns an impulse maximizing
`0.6 * |valence| + 0.4 * arousal`; over the impulses joy (0.8, 0.7) and
fear (-0.2, 0.9) it selects joy, with scores 0.76 and 0.48. -/
theorem claim_c4_dominant_selection :
    (∀ es : List EmergentEmotion, getDominantEmotion es = none ↔ es = []) ∧
    (∀ es d, getDominantEmotion es = some d →
      d ∈ es ∧ ∀ e ∈ es, 0.6 * |e.valence| + 0.4 * e.arousal ≤
        0.6 * |d.valence| + 0.4 * d.arousal) ∧
    (getDominantEmotion [joySample, fearSample] = some joySample ∧
      scoreOf joySample = 0.76 ∧ scoreOf fearSample = 0.48) := by
  refine ⟨getDominantEmotion_eq_none_iff, ?_, ?_⟩
  · intro es d h
    obtain ⟨hmem, hmax⟩ := getDominantEmotion_mem_and_max es d h
    refine ⟨hmem, ?_⟩
    intro e he
    have := hmax e he
    simp only [scoreOf, absQ_eq_abs] at this
    linarith
  · refine ⟨?_, ?_⟩
    · norm_num [getDominantEmotion, scoreOf, absQ, joySample, fearSample]
    · norm_num [scoreOf, absQ, joySample, fearSample]

/-- Witness for C4: the maximality clause instantiated on the joy/fear
pair — joy is a member and its score dominates fear's. -/
theorem claim_c4_dominant_selection_witness :
    joySample ∈ [joySample, fearSample] ∧
    0.6 * |fearSample.valence| + 0.4 * fearSample.arousal ≤
      0.6 * |joySample.valence| + 0.4 * joySample.arousal := by
  have h := claim_c4_dominant_selection.2.1 [joySample, fearSample] joySample
    (by norm_num [getDominantEmotion, scoreOf, absQ, joySample, fearSample])
  exact ⟨h.1, h.2 fearSample (by simp)⟩


/-! ### C9: snapshot derivation -/

/-- C9: `snapshot()` (`get_emotional_state`) derives `mood` from the sign
of the dominant impulse's valence and is `"neutral"` exactly when there is
no dominant impulse; `energy` is `"high"` for dominant arousal > 0.6,
`"medium"` for > 0.3, else `"low"`, and `"low"` with no dominant impulse;
`moodBias` (`valence_bias`) is the mean valence of the last 10 history
entries scaled by the memory weight 0.2, and 0 on empty history. -/
theorem claim_c9_snapshot_derivation :
    ∀ s : EmotionalCore,
      ((getEmotionalState s).mood = "neutral" ↔
        getDominantEmotion s.current_emotions = none) ∧
      (∀ d, getDominantEmotion s.current_emotions = some d →
        (getEmotionalState s).mood =
          (if 0 < d.valence then "positive" else "negative") ∧
        (getEmotionalState s).energy =
          (if 0.6 < d.arousal then "high"
            else if 0.3 < d.arousal then "medium" else "low")) ∧
      (getDominantEmotion s.current_emotions = none →
        (getEmotionalState s).energy = "low") ∧
      (s.memory.memory_weight = 0.2 →
        (s.memory.emotional_history = [] → (getEmotionalState s).valence_bias = 0) ∧
        (s.memory.emotional_history ≠ [] →
          (getEmotionalState s).valence_bias =
            (((s.memory.emotional_history.drop
                (s.memory.emotional_history.length - 10)).map (·.valence)).sum /
              ((s.memory.emotional_history.drop
                (s.memory.emotional_history.length - 10)).length : ℚ)) * 0.2)) := by
  intro s
  have hbias : ∀ hw : s.memory.memory_weight = 0.2,
      (s.memory.emotional_history = [] → getMoodBias s.memory = 0) ∧
      (s.memory.emotional_history ≠ [] →
        getMoodBias s.memory =
          (((s.memory.emotional_history.drop
              (s.memory.emotional_history.length - 10)).map (·.valence)).sum /
            ((s.memory.emotional_history.drop
              (s.memory.emotional_history.length - 10)).length : ℚ)) * 0.2) := by
    intro hw
    constructor
    · intro h; simp [getMoodBias, h]
    · intro h
      have hlen : 0 < s.memory.emotional_history.length := List.length_pos.mpr h
      have hrec : s.memory.emotional_history.drop
          (s.memory.emotional_history.length - 10) ≠ [] := by
        intro hnil
        rw [List.drop_eq_nil_iff] at hnil
        omega
      rw [getMoodBias, if_neg h, if_neg hrec, hw]
  cases hd : getDominantEmotion s.current_emotions with
  | none =>
    refine ⟨?_, ?_, ?_, ?_⟩
    · simp [getEmotionalState, hd]
    · intro d h; exact absurd h (by simp)
    · intro _; simp [getEmotionalState, hd]
    · intro hw
      have := hbias hw
      simpa [getEmotionalState, hd] using this
  | some d0 =>
    refine ⟨?_, ?_, ?_, ?_⟩
    · simp only [getEmotionalState, hd]
      constructor
      · intro h
        by_cases hv : 0 < d0.valence <;> simp [hv] at h
      · intro h; exact absurd h (by simp)
    · intro d h
      simp only [Option.some.injEq] at h
      subst h
      simp [getEmotionalState, hd]
    · intro h; exact absurd h (by simp)
    · intro hw
      have := hbias hw
      simpa [getEmotionalState, hd] using this

/-- Witness for C9: on a freshly constructed core the history is empty,
so the snapshot's mood bias is 0. -/
theorem claim_c9_snapshot_derivation_witness :
    (getEmotionalState freshA).valence_bias = 0 :=
  ((claim_c9_snapshot_derivation freshA).2.2.2
    (by norm_num [freshA, mkCore])).1 rfl

/-! ### C2: applyStimulus blending, insertion and eviction -/

theorem blendFirst_eq_none (es : List EmergentEmotion) (n : EmergentEmotion)
    (h : ∀ x ∈ es, x.name ≠ n.name) : blendFirst es n = none := by
  induction es with
  | nil => rfl
  | cons e rest ih =>
    simp only [blendFirst]
    rw [if_neg (h e (List.mem_cons_self e rest))]
    rw [ih (fun x hx => h x (List.mem_cons_of_mem e hx))]
    rfl

theorem addOrUpdateEmotion_insert (s : EmotionalCore) (n : EmergentEmotion)
    (hname : ∀ x ∈ s.current_emotions, x.name ≠ n.name)
    (hlen : s.current_emotions.length < 5) :
    addOrUpdateEmotion s n =
      { s with current_emotions := s.current_emotions ++ [n] } := by
  rw [addOrUpdateEmotion, blendFirst_eq_none _ _ hname]
  simp only
  rw [if_neg (by simp; omega)]

theorem blendFirst_first_match (pre post : List EmergentEmotion)
    (e n : EmergentEmotion) (hpre : ∀ x ∈ pre, x.name ≠ n.name)
    (he : e.name = n.name) :
    blendFirst (pre ++ e :: post) n =
      some (pre ++ updateEmo e n.valence n.arousal :: post) := by
  induction pre with
  | nil => simp [blendFirst, he]
  | cons x rest ih =>
    simp only [List.cons_append, blendFirst]
    rw [if_neg (hpre x (List.mem_cons_self x rest))]
    rw [List.append_eq, ih (fun y hy => hpre y (List.mem_cons_of_mem x hy))]
    rfl

theorem weakestEmotion_eq_none_iff (es : List EmergentEmotion) :
    weakestEmotion es = none ↔ es = [] := by
  cases es with
  | nil => simp [weakestEmotion]
  | cons e rest =>
    simp only [weakestEmotion]
    constructor
    · intro h
      cases hrest : weakestEmotion rest with
      | none => rw [hrest] at h; exact absurd h (by simp)
      | some w =>
        rw [hrest] at h
        by_cases hw : w.arousal < e.arousal <;> simp [hw] at h
    · intro h; exact absurd h (by simp)

theorem weakestEmotion_spec (es : List EmergentEmotion) :
    ∀ w, weakestEmotion es = some w →
      w ∈ es ∧ ∀ e ∈ es, w.arousal ≤ e.arousal := by
  induction es with
  | nil => intro w h; simp [weakestEmotion] at h
  | cons e rest ih =>
    intro w h
    simp only [weakestEmotion] at h
    cases hrest : weakestEmotion rest with
    | none =>
      rw [hrest] at h
      simp only [Option.some.injEq] at h
      subst h
      have : rest = [] := (weakestEmotion_eq_none_iff rest).mp hrest
      subst this
      exact ⟨by simp, by intro x hx; simp at hx; subst hx; exact le_refl _⟩
    | some w' =>
      rw [hrest] at h
      obtain ⟨hmem, hmin⟩ := ih w' hrest
      by_cases hw : w'.arousal < e.arousal
      · simp only [if_pos hw, Option.some.injEq] at h
        subst h
        refine ⟨List.mem_cons_of_mem _ hmem, ?_⟩
        intro x hx
        rcases List.mem_cons.mp hx with hx | hx
        · subst hx; exact le_of_lt hw
        · exact hmin x hx
      · simp only [if_neg hw, Option.some.injEq] at h
        subst h
        refine ⟨List.mem_cons_self _ _, ?_⟩
        intro x hx
        rcases List.mem_cons.mp hx with hx | hx
        · subst hx; exact le_refl _
        · exact le_trans (not_lt.mp hw) (hmin x hx)

theorem weakestEmotion_earliest (es : List EmergentEmotion) :
    ∀ w, List.Pairwise (fun a b => a.timestamp ≤ b.timestamp) es →
      weakestEmotion es = some w →
      ∀ e ∈ es, e.arousal = w.arousal → w.timestamp ≤ e.timestamp := by
  induction es with
  | nil => intro w _ h; simp [weakestEmotion] at h
  | cons e rest ih =>
    intro w hp h
    rw [List.pairwise_cons] at hp
    obtain ⟨hhead, hptail⟩ := hp
    simp only [weakestEmotion] at h
    cases hrest : weakestEmotion rest with
    | none =>
      rw [hrest] at h
      simp only [Option.some.injEq] at h
      subst h
      have : rest = [] := (weakestEmotion_eq_none_iff rest).mp hrest
      subst this
      intro x hx _
      simp at hx
      subst hx
      exact le_refl _
    | some w' =>
      rw [hrest] at h
      by_cases hw : w'.arousal < e.arousal
      · simp only [if_pos hw, Option.some.injEq] at h
        subst h
        intro x hx hax
        rcases List.mem_cons.mp hx with hx | hx
        · subst hx; exact absurd hax (by intro hax; rw [hax] at hw; exact lt_irrefl _ hw)
        · exact ih w' hptail hrest x hx hax
      · simp only [if_neg hw, Option.some.injEq] at h
        subst h
        intro x hx _
        rcases List.mem_cons.mp hx with hx | hx
        · subst hx; exact le_refl _
        · exact hhead x hx

/-- C2: `applyStimulus` (`_add_or_update_emotion`): when an impulse with
the stimulus name already exists (first match), its valence and arousal
are blended with inertia 0.3 (30% prior, 70% new — exactly, when the
values are in their declared ranges) and the impulse count is unchanged;
when no name matches, the impulse is appended, and whenever the count then
exceeds the capacity 5 exactly one impulse is evicted — one of minimal
arousal, earliest `createdAt` among ties (timestamps are non-decreasing in
insertion order in every engine-produced state) — leaving exactly 5. -/
theorem claim_c2_apply_stimulus :
    ∀ (s : EmotionalCore) (n : EmergentEmotion),
      (∀ pre e post, s.current_emotions = pre ++ e :: post → e.name = n.name →
        (∀ x ∈ pre, x.name ≠ n.name) →
        ((addOrUpdateEmotion s n).current_emotions =
          pre ++ updateEmo e n.valence n.arousal :: post ∧
        (addOrUpdateEmotion s n).current_emotions.length =
          s.current_emotions.length ∧
        (-1 ≤ e.valence → e.valence ≤ 1 → -1 ≤ n.valence → n.valence ≤ 1 →
          (updateEmo e n.valence n.arousal).valence =
            0.3 * e.valence + 0.7 * n.valence) ∧
        (0 ≤ e.arousal → e.arousal ≤ 1 → 0 ≤ n.arousal → n.arousal ≤ 1 →
          (updateEmo e n.valence n.arousal).arousal =
            0.3 * e.arousal + 0.7 * n.arousal))) ∧
      ((∀ x ∈ s.current_emotions, x.name ≠ n.name) →
        s.current_emotions.length < 5 →
        (addOrUpdateEmotion s n).current_emotions = s.current_emotions ++ [n]) ∧
      ((∀ x ∈ s.current_emotions, x.name ≠ n.name) →
        s.current_emotions.length = 5 →
        List.Pairwise (fun a b => a.timestamp ≤ b.timestamp)
          (s.current_emotions ++ [n]) →
        ∃ w, w ∈ s.current_emotions ++ [n] ∧
          (∀ e ∈ s.current_emotions ++ [n], w.arousal ≤ e.arousal) ∧
          (∀ e ∈ s.current_emotions ++ [n], e.arousal = w.arousal →
            w.timestamp ≤ e.timestamp) ∧
          (addOrUpdateEmotion s n).current_emotions =
            (s.current_emotions ++ [n]).erase w ∧
          (addOrUpdateEmotion s n).current_emotions.length = 5) := by
  intro s n
  refine ⟨?_, ?_, ?_⟩
  · intro pre e post hsplit he hpre
    have hblend := blendFirst_first_match pre post e n hpre he
    have hres : (addOrUpdateEmotion s n).current_emotions =
        pre ++ updateEmo e n.valence n.arousal :: post := by
      rw [addOrUpdateEmotion, hsplit, hblend]
    refine ⟨hres, ?_, ?_, ?_⟩
    · rw [hres, hsplit]; simp
    · intro h1 h2 h3 h4
      show (updateEmo e n.valence n.arousal).valence = _
      rw [updateEmo]
      simp only
      have hle : e.valence * 0.3 + n.valence * (1 - 0.3) ≤ 1 := by norm_num; linarith
      have hge : (-1 : ℚ) ≤ e.valence * 0.3 + n.valence * (1 - 0.3) := by
        norm_num; linarith
      rw [min_eq_right hle, max_eq_right hge]
      ring
    · intro h1 h2 h3 h4
      show (updateEmo e n.valence n.arousal).arousal = _
      rw [updateEmo]
      simp only
      have hle : e.arousal * 0.3 + n.arousal * (1 - 0.3) ≤ 1 := by norm_num; linarith
      have hge : (0 : ℚ) ≤ e.arousal * 0.3 + n.arousal * (1 - 0.3) := by
        norm_num; linarith
      rw [min_eq_right hle, max_eq_right hge]
      ring
  · intro hname hlen
    have hblend := blendFirst_eq_none s.current_emotions n hname
    rw [addOrUpdateEmotion, hblend]
    simp only
    rw [if_neg (by simp; omega)]
  · intro hname hlen hp
    have hblend := blendFirst_eq_none s.current_emotions n hname
    have hne : s.current_emotions ++ [n] ≠ [] := by simp
    obtain ⟨w, hw⟩ : ∃ w, weakestEmotion (s.current_emotions ++ [n]) = some w := by
      cases hwk : weakestEmotion (s.current_emotions ++ [n]) with
      | none => exact absurd ((weakestEmotion_eq_none_iff _).mp hwk) hne
      | some w => exact ⟨w, rfl⟩
    obtain ⟨hmem, hmin⟩ := weakestEmotion_spec _ w hw
    have hearly := weakestEmotion_earliest _ w hp hw
    have hres : (addOrUpdateEmotion s n).current_emotions =
        (s.current_emotions ++ [n]).erase w := by
      rw [addOrUpdateEmotion, hblend]
      simp only
      rw [if_pos (by simp; omega), hw]
    refine ⟨w, hmem, hmin, hearly, hres, ?_⟩
    rw [hres, List.length_erase_of_mem hmem]
    simp
    omega



/-- Witness for C2: inserting a sixth impulse into a full core evicts
exactly one impulse, leaving exactly 5. -/
theorem claim_c2_apply_stimulus_witness :
    (addOrUpdateEmotion fullCore sixthEmotion).current_emotions.length = 5 := by
  obtain ⟨w, hw⟩ := (claim_c2_apply_stimulus fullCore sixthEmotion).2.2
    (by intro x hx; fin_cases hx <;> simp [fullCore, sixthEmotion])
    (by rfl)
    (by simp [fullCore, sixthEmotion, List.pairwise_cons]; norm_num)
  exact hw.2.2.2.2

/-! ### C1: numeric bounds invariant -/

theorem blendFirst_mem (es : List EmergentEmotion) (n : EmergentEmotion) :
    ∀ es', blendFirst es n = some es' → ∀ e' ∈ es',
      e' ∈ es ∨ ∃ e ∈ es, e' = updateEmo e n.valence n.arousal := by
  induction es with
  | nil => intro es' h; simp [blendFirst] at h
  | cons e rest ih =>
    intro es' h e' he'
    simp only [blendFirst] at h
    by_cases hn : e.name = n.name
    · rw [if_pos hn] at h
      simp only [Option.some.injEq] at h
      subst h
      rcases List.mem_cons.mp he' with h | h
      · exact Or.inr ⟨e, List.mem_cons_self _ _, h⟩
      · exact Or.inl (List.mem_cons_of_mem _ h)
    · rw [if_neg hn] at h
      cases hrest : blendFirst rest n with
      | none => rw [hrest] at h; exact absurd h (by simp)
      | some es'' =>
        rw [hrest] at h
        simp only [Option.map_some', Option.some.injEq] at h
        subst h
        rcases List.mem_cons.mp he' with h | h
        · exact Or.inl (h ▸ List.mem_cons_self _ _)
        · rcases ih es'' hrest e' h with h | ⟨x, hx, hxe⟩
          · exact Or.inl (List.mem_cons_of_mem _ h)
          · exact Or.inr ⟨x, List.mem_cons_of_mem _ hx, hxe⟩

theorem mem_addOrUpdateEmotion (s : EmotionalCore) (n : EmergentEmotion) :
    ∀ e' ∈ (addOrUpdateEmotion s n).current_emotions,
      e' ∈ s.current_emotions ∨ e' = n ∨
        ∃ e ∈ s.current_emotions, e' = updateEmo e n.valence n.arousal := by
  intro e' he'
  rw [addOrUpdateEmotion] at he'
  cases hb : blendFirst s.current_emotions n with
  | some es =>
    rw [hb] at he'
    simp only at he'
    rcases blendFirst_mem s.current_emotions n es hb e' he' with h | ⟨x, hx, hxe⟩
    · exact Or.inl h
    · exact Or.inr (Or.inr ⟨x, hx, hxe⟩)
  | none =>
    rw [hb] at he'
    simp only at he'
    by_cases hlen : 5 < (s.current_emotions ++ [n]).length
    · rw [if_pos hlen] at he'
      cases hw : weakestEmotion (s.current_emotions ++ [n]) with
      | some w =>
        rw [hw] at he'
        simp only at he'
        have : e' ∈ s.current_emotions ++ [n] := List.mem_of_mem_erase he'
        rcases List.mem_append.mp this with h | h
        · exact Or.inl h
        · exact Or.inr (Or.inl (by simpa using h))
      | none =>
        rw [hw] at he'
        simp only at he'
        rcases List.mem_append.mp he' with h | h
        · exact Or.inl h
        · exact Or.inr (Or.inl (by simpa using h))
    · rw [if_neg hlen] at he'
      rcases List.mem_append.mp he' with h | h
      · exact Or.inl h
      · exact Or.inr (Or.inl (by simpa using h))

theorem inBounds_updateEmo (e : EmergentEmotion) (nv na : ℚ)
    (he : InBounds e) : InBounds (updateEmo e nv na) := by
  obtain ⟨_, _, _, _, hd0, hd1⟩ := he
  refine ⟨le_max_left _ _, ?_, le_max_left _ _, ?_, hd0, hd1⟩
  · exact max_le (by norm_num) (min_le_left _ _)
  · exact max_le (by norm_num) (min_le_left _ _)

theorem inBounds_decayEmo (e : EmergentEmotion) (he : InBounds e)
    (hdr : e.decay_rate = 0.95) : InBounds (decayEmo e) := by
  obtain ⟨h1, h2, h3, h4, h5, h6⟩ := he
  rw [InBounds, decayEmo]
  simp only [hdr]
  norm_num
  constructor; · linarith
  constructor; · linarith
  constructor; · linarith
  constructor; · linarith
  constructor; · linarith
  linarith

theorem inBounds_joyEmotion (blooms : ℤ) (hb : 0 < blooms) (t : ℚ) :
    InBounds (joyEmotion blooms t) := by
  have hcast : (1 : ℚ) ≤ (blooms : ℚ) := by exact_mod_cast hb
  have hlo : (0.2 : ℚ) ≤ min ((blooms : ℚ) * 0.2) 0.9 := by
    refine le_min ?_ (by norm_num)
    linarith
  have hhi : min ((blooms : ℚ) * 0.2) 0.9 ≤ 0.9 := min_le_right _ _
  rw [joyEmotion, InBounds]
  simp only
  refine ⟨by linarith, by linarith, by linarith, by linarith, by norm_num, by norm_num⟩

theorem inBounds_fluctuationEmotion (i : Fin 4) (t : ℚ) :
    InBounds (fluctuationEmotion i t) := by
  fin_cases i <;> norm_num [fluctuationEmotion, InBounds]

theorem inBounds_addOrUpdateEmotion (s : EmotionalCore) (n : EmergentEmotion)
    (hs : ∀ e ∈ s.current_emotions, InBounds e) (hn : InBounds n) :
    ∀ e ∈ (addOrUpdateEmotion s n).current_emotions, InBounds e := by
  intro e' he'
  rcases mem_addOrUpdateEmotion s n e' he' with h | h | ⟨x, hx, hxe⟩
  · exact hs e' h
  · exact h ▸ hn
  · exact hxe ▸ inBounds_updateEmo x n.valence n.arousal (hs x hx)



/-- C1 counterexample: inserting a fresh out-of-range stimulus stores it
unclamped — afterwards the state holds an impulse whose valence is 2 > 1,
so the claimed invariant ("out-of-range values clamped, never exceeded")
fails on the insertion path of `_add_or_update_emotion`. -/
theorem claim_c1_counterexample :
    (addOrUpdateEmotion quietCore overflowEmotion).current_emotions =
      [overflowEmotion] ∧ 1 < overflowEmotion.valence := by
  constructor
  · rw [addOrUpdateEmotion_insert quietCore overflowEmotion
      (by simp [quietCore]) (by simp [quietCore])]
    simp [quietCore]
  · norm_num [overflowEmotion]

/-- C1 (amended): for stimuli whose numeric fields are within the declared
bounds, every mutating operation preserves the bounds of every impulse
(blending clamps, decay shrinks, the fixed garden / interaction /
fluctuation impulses are in range), and no operation rejects its input.
The original claim fails only for a fresh insertion of an out-of-range
stimulus, which is stored unclamped. -/
theorem claim_c1_bounds_amended :
    ∀ (s : EmotionalCore) (n : EmergentEmotion) (ty : String)
      (sentiment now complexity : ℚ) (blooms : ℤ) (fluct : Option (Fin 4 × ℚ)),
      (∀ e ∈ s.current_emotions, InBounds e) →
      ((InBounds n →
        ∀ e ∈ (addOrUpdateEmotion s n).current_emotions, InBounds e) ∧
      ((∀ e ∈ s.current_emotions, e.decay_rate = 0.95) →
        ∀ e ∈ (processEmotionalCycle s fluct).current_emotions, InBounds e) ∧
      (∀ e ∈ (updateFromGarden s complexity blooms now).current_emotions,
        InBounds e) ∧
      (∀ e ∈ (updateFromInteraction s ty sentiment now).current_emotions,
        InBounds e)) := by
  intro s n ty sentiment now complexity blooms fluct hs
  refine ⟨fun hn => inBounds_addOrUpdateEmotion s n hs hn, ?_, ?_, ?_⟩
  · intro hdr e' he'
    rw [processEmotionalCycle.eq_def] at he'
    simp only at he'
    have hdecayed : ∀ e ∈ s.current_emotions.map decayEmo, InBounds e := by
      intro e he
      rcases List.mem_map.mp he with ⟨x, hx, hxe⟩
      exact hxe ▸ inBounds_decayEmo x (hs x hx) (hdr x hx)
    cases fluct with
    | none =>
      cases hd : getDominantEmotion (s.current_emotions.map decayEmo) with
      | none =>
        rw [hd] at he'
        simp only at he'
        exact hdecayed e' (List.mem_of_mem_filter he')
      | some d =>
        rw [hd] at he'
        simp only at he'
        exact hdecayed e' (List.mem_of_mem_filter he')
    | some ft =>
      obtain ⟨i, t⟩ := ft
      simp only at he'
      set s1 := addOrUpdateEmotion
        { s with current_emotions := s.current_emotions.map decayEmo }
        (fluctuationEmotion i t) with hs1
      have hall : ∀ e ∈ s1.current_emotions, InBounds e :=
        inBounds_addOrUpdateEmotion _ _ hdecayed (inBounds_fluctuationEmotion i t)
      cases hd : getDominantEmotion s1.current_emotions with
      | none =>
        rw [hd] at he'
        simp only at he'
        exact hall e' (List.mem_of_mem_filter he')
      | some d =>
        rw [hd] at he'
        simp only at he'
        exact hall e' (List.mem_of_mem_filter he')
  · rw [updateFromGarden]
    by_cases hc : (0.7 : ℚ) < complexity
    · rw [if_pos hc]
      have hawe : ∀ e ∈ (addOrUpdateEmotion s (aweEmotion now)).current_emotions,
          InBounds e :=
        inBounds_addOrUpdateEmotion s _ hs (by norm_num [aweEmotion, InBounds])
      by_cases hbl : (0 : ℤ) < blooms
      · rw [if_pos hbl]
        exact inBounds_addOrUpdateEmotion _ _ hawe (inBounds_joyEmotion blooms hbl now)
      · rw [if_neg hbl]; exact hawe
    · rw [if_neg hc]
      by_cases hbl : (0 : ℤ) < blooms
      · rw [if_pos hbl]
        exact inBounds_addOrUpdateEmotion _ _ hs (inBounds_joyEmotion blooms hbl now)
      · rw [if_neg hbl]; exact hs
  · rw [updateFromInteraction]
    by_cases hq : ty = "query"
    · rw [if_pos hq]
      simp only
      by_cases h1 : absQ sentiment < 0.3
      · rw [if_pos h1]
        exact inBounds_addOrUpdateEmotion s _ hs
          (by norm_num [contemplationEmotion, InBounds])
      · rw [if_neg h1]
        by_cases h2 : (0.3 : ℚ) < sentiment
        · rw [if_pos h2]
          exact inBounds_addOrUpdateEmotion s _ hs
            (by norm_num [engagementEmotion, InBounds])
        · rw [if_neg h2]
          exact inBounds_addOrUpdateEmotion s _ hs
            (by norm_num [defensiveEmotion, InBounds])
    · rw [if_neg hq]; exact hs

/-- Witness for C1 (amended): inserting an in-range stimulus into a fresh
core leaves that stimulus, as stored, within bounds. -/
theorem claim_c1_bounds_amended_witness :
    InBounds sixthEmotion :=
  (claim_c1_bounds_amended freshA sixthEmotion "query" 0 0 0 0 none
    (by intro e he
        simp [freshA, mkCore, initialEmotions] at he
        rcases he with h | h <;> subst h <;> norm_num [InBounds])).1
    (by norm_num [sixthEmotion, InBounds])
    sixthEmotion
    (by rw [addOrUpdateEmotion_insert freshA sixthEmotion
          (by intro x hx
              simp [freshA, mkCore, initialEmotions] at hx
              rcases hx with h | h <;> subst h <;> simp [sixthEmotion])
          (by simp [freshA, mkCore, initialEmotions])]
        simp)

/-! ### C3: decay cycles -/

theorem processCycle_none_emotions (s : EmotionalCore) :
    (processEmotionalCycle s none).current_emotions =
      (s.current_emotions.map decayEmo).filter isSignificant := by
  rw [processEmotionalCycle.eq_def]
  cases hd : getDominantEmotion (s.current_emotions.map decayEmo) <;> simp [hd]

theorem isSignificant_eq (e : EmergentEmotion) :
    isSignificant e = decide (¬(|e.valence| ≤ 0.05 ∧ e.arousal ≤ 0.05)) := by
  by_cases h1 : (0.05 : ℚ) < |e.valence|
  · simp [isSignificant, absQ_eq_abs, h1, not_le.mpr h1]
  · by_cases h2 : (0.05 : ℚ) < e.arousal
    · simp [isSignificant, absQ_eq_abs, h1, h2, not_le.mpr h2]
    · simp [isSignificant, absQ_eq_abs, h1, h2, not_lt.mp h1, not_lt.mp h2]

theorem mem_processCycle_none (s : EmotionalCore) :
    ∀ e' ∈ (processEmotionalCycle s none).current_emotions,
      ∃ e ∈ s.current_emotions, e' = decayEmo e := by
  intro e' he'
  rw [processCycle_none_emotions] at he'
  rcases List.mem_map.mp (List.mem_of_mem_filter he') with ⟨e, he, hee⟩
  exact ⟨e, he, hee.symm⟩

/-- C3: with the fluctuation branch disabled, N decay cycles multiply
every surviving impulse's valence, arousal and dominance by `0.95 ^ N`;
each cycle appends the post-decay dominant impulse (if any) to the history
(evicting the oldest past capacity 100) and then removes exactly the
impulses with `|valence| ≤ 0.05` and `arousal ≤ 0.05`. -/
theorem claim_c3_decay_cycles :
    ∀ (s : EmotionalCore) (N : ℕ),
      ((∀ e ∈ s.current_emotions, e.decay_rate = 0.95) →
        ∀ e' ∈ (decayCycles N s).current_emotions,
          ∃ e ∈ s.current_emotions, e'.name = e.name ∧
            e'.valence = 0.95 ^ N * e.valence ∧
            e'.arousal = 0.95 ^ N * e.arousal ∧
            e'.dominance = 0.95 ^ N * e.dominance) ∧
      ((processEmotionalCycle s none).current_emotions =
        (s.current_emotions.map decayEmo).filter
          (fun e => decide (¬(|e.valence| ≤ 0.05 ∧ e.arousal ≤ 0.05)))) ∧
      (s.memory.max_history = 100 →
        (processEmotionalCycle s none).memory.emotional_history =
          match getDominantEmotion (s.current_emotions.map decayEmo) with
          | none => s.memory.emotional_history
          | some d =>
            let h := s.memory.emotional_history ++
              [⟨d.name, d.valence, d.arousal, d.emergence_source, d.timestamp⟩]
            if 100 < h.length then h.tail else h) ∧
      ((∀ e ∈ s.current_emotions, e.decay_rate = 0.95) →
        (decayCycles N s).current_emotions.length ≤
          s.current_emotions.length) := by
  intro s N
  refine ⟨?_, ?_, ?_, ?_⟩
  · induction N generalizing s with
    | zero =>
      intro hdr e' he'
      refine ⟨e', he', rfl, ?_, ?_, ?_⟩ <;> rw [pow_zero, one_mul]
    | succ n ih =>
      intro hdr e' he'
      have hstep : decayCycles (n + 1) s =
          decayCycles n (processEmotionalCycle s none) := rfl
      rw [hstep] at he'
      have hdr' : ∀ e ∈ (processEmotionalCycle s none).current_emotions,
          e.decay_rate = 0.95 := by
        intro e he
        rcases mem_processCycle_none s e he with ⟨x, hx, hxe⟩
        rw [hxe, decayEmo]
        exact hdr x hx
      rcases ih (processEmotionalCycle s none) hdr' e' he' with
        ⟨e1, he1, hname, hv, ha, hd⟩
      rcases mem_processCycle_none s e1 he1 with ⟨e, he, hee⟩
      refine ⟨e, he, ?_, ?_, ?_, ?_⟩
      · rw [hname, hee, decayEmo]
      · rw [hv, hee, decayEmo]
        simp only [hdr e he]
        ring
      · rw [ha, hee, decayEmo]
        simp only [hdr e he]
        ring
      · rw [hd, hee, decayEmo]
        simp only [hdr e he]
        ring
  · rw [processCycle_none_emotions]
    exact List.filter_congr (fun e _ => isSignificant_eq e)
  · intro hmh
    rw [processEmotionalCycle.eq_def]
    cases hd : getDominantEmotion (s.current_emotions.map decayEmo) with
    | none => simp [hd]
    | some d => simp [hd, addMemory, hmh]
  · intro hdr
    induction N generalizing s with
    | zero => exact le_refl _
    | succ n ih =>
      have hdr' : ∀ e ∈ (processEmotionalCycle s none).current_emotions,
          e.decay_rate = 0.95 := by
        intro e he
        rcases mem_processCycle_none s e he with ⟨x, hx, hxe⟩
        rw [hxe, decayEmo]
        exact hdr x hx
      have hc : (processEmotionalCycle s none).current_emotions.length ≤
          s.current_emotions.length := by
        rw [processCycle_none_emotions]
        exact le_trans (List.length_filter_le _ _)
          (le_of_eq (List.length_map _ _))
      exact le_trans (ih (processEmotionalCycle s none) hdr') hc

/-- Witness for C3: one fluctuation-free cycle on a fresh core (whose
impulses all carry decay rate 0.95) cannot grow the impulse set. -/
theorem claim_c3_decay_cycles_witness :
    (decayCycles 1 freshA).current_emotions.length ≤
      freshA.current_emotions.length :=
  (claim_c3_decay_cycles freshA 1).2.2.2
    (by intro e he
        simp [freshA, mkCore, initialEmotions] at he
        rcases he with h | h <;> subst h <;> rfl)

/-! ### C6: interaction thresholds; C7: garden stimuli -/

/-- C6 counterexample: at sentiment exactly 0.3 (which satisfies the
claim's "sentiment ≥ 0.3"), the code's strict `sentiment > 0.3` test
fails and the defensive impulse is blended, not engagement. -/
theorem claim_c6_counterexample :
    (0.3 : ℚ) ≤ 3/10 ∧
    ((updateFromInteraction quietCore "query" (3/10) 0).current_emotions.map
      (·.name)) = ["defensive"] := by
  refine ⟨by norm_num, ?_⟩
  norm_num [updateFromInteraction, addOrUpdateEmotion, blendFirst, quietCore,
    absQ, defensiveEmotion]

/-- C6 (amended): `recordFromInteraction("query", s)` blends contemplation
(0.4, 0.3) when `|s| < 0.3`, engagement (0.6, 0.5) when `s > 0.3`
(strictly — at `s = 0.3` the defensive branch fires instead), and
defensive (-0.4, 0.6) when `s ≤ -0.3`; non-"query" interactions do
nothing.  On an empty impulse set, sentiment -0.5 yields the single
defensive impulse with snapshot mood "negative" and energy "medium". -/
theorem claim_c6_interaction_amended :
    ∀ (s : EmotionalCore) (sentiment now : ℚ) (ty : String),
      (|sentiment| < 0.3 →
        updateFromInteraction s "query" sentiment now =
          addOrUpdateEmotion s (contemplationEmotion now)) ∧
      (0.3 < sentiment →
        updateFromInteraction s "query" sentiment now =
          addOrUpdateEmotion s (engagementEmotion now)) ∧
      (sentiment ≤ -0.3 →
        updateFromInteraction s "query" sentiment now =
          addOrUpdateEmotion s (defensiveEmotion now)) ∧
      (sentiment = 0.3 →
        updateFromInteraction s "query" sentiment now =
          addOrUpdateEmotion s (defensiveEmotion now)) ∧
      (ty ≠ "query" → updateFromInteraction s ty sentiment now = s) ∧
      ((contemplationEmotion now).valence = 0.4 ∧
        (contemplationEmotion now).arousal = 0.3 ∧
        (engagementEmotion now).valence = 0.6 ∧
        (engagementEmotion now).arousal = 0.5 ∧
        (defensiveEmotion now).valence = -0.4 ∧
        (defensiveEmotion now).arousal = 0.6) ∧
      ((updateFromInteraction quietCore "query" (-0.5) 0).current_emotions =
        [defensiveEmotion 0] ∧
        (getEmotionalState
          (updateFromInteraction quietCore "query" (-0.5) 0)).mood = "negative" ∧
        (getEmotionalState
          (updateFromInteraction quietCore "query" (-0.5) 0)).energy = "medium") := by
  intro s sentiment now ty
  have habs : absQ sentiment = |sentiment| := absQ_eq_abs sentiment
  refine ⟨?_, ?_, ?_, ?_, ?_, ?_, ?_⟩
  · intro h
    rw [updateFromInteraction, if_pos rfl]
    simp only [habs]
    rw [if_pos h]
  · intro h
    have habs2 : ¬ absQ sentiment < 0.3 := by
      rw [habs]
      rw [abs_of_pos (by linarith)]
      linarith
    rw [updateFromInteraction, if_pos rfl]
    simp only
    rw [if_neg habs2, if_pos h]
  · intro h
    have habs2 : ¬ absQ sentiment < 0.3 := by
      rw [habs, abs_of_nonpos (by linarith)]
      linarith
    rw [updateFromInteraction, if_pos rfl]
    simp only
    rw [if_neg habs2, if_neg (by linarith)]
  · intro h
    subst h
    have habs2 : ¬ absQ (0.3 : ℚ) < 0.3 := by
      rw [habs, abs_of_pos (by norm_num)]
      norm_num
    rw [updateFromInteraction, if_pos rfl]
    simp only
    rw [if_neg habs2, if_neg (by norm_num)]
  · intro h
    rw [updateFromInteraction, if_neg h]
  · norm_num [contemplationEmotion, engagementEmotion, defensiveEmotion]
  · have hstate : (updateFromInteraction quietCore "query" (-0.5) 0).current_emotions =
        [defensiveEmotion 0] := by
      norm_num [updateFromInteraction, addOrUpdateEmotion, blendFirst, quietCore, absQ]
    have hdom : getDominantEmotion
        (updateFromInteraction quietCore "query" (-0.5) 0).current_emotions =
          some (defensiveEmotion 0) := by
      rw [hstate]; simp [getDominantEmotion]
    refine ⟨hstate, ?_, ?_⟩ <;>
      · simp only [getEmotionalState, hdom]
        norm_num [defensiveEmotion]

/-- Witness for C6 (amended): the contemplation clause at sentiment 0. -/
theorem claim_c6_interaction_amended_witness :
    updateFromInteraction quietCore "query" 0 0 =
      addOrUpdateEmotion quietCore (contemplationEmotion 0) :=
  (claim_c6_interaction_amended quietCore 0 0 "other").1 (by norm_num)

/-- C7: `recordFromGarden` blends awe (0.8, 0.7) iff complexity > 0.7 and
joy with valence `min(blooms * 0.2, 0.9)` and arousal that value times 0.8
iff the bloom count is positive; from the fresh default state,
complexity 0.8 with 3 blooms creates joy with valence 0.6 and awe
(0.8, 0.7), and the dominant impulse is awe (score 0.76 over joy's
0.552). -/
theorem claim_c7_garden :
    ∀ (s : EmotionalCore) (complexity : ℚ) (blooms : ℤ) (now : ℚ),
      (complexity ≤ 0.7 → blooms ≤ 0 →
        updateFromGarden s complexity blooms now = s) ∧
      (0.7 < complexity → blooms ≤ 0 →
        updateFromGarden s complexity blooms now =
          addOrUpdateEmotion s (aweEmotion now)) ∧
      (complexity ≤ 0.7 → 0 < blooms →
        updateFromGarden s complexity blooms now =
          addOrUpdateEmotion s (joyEmotion blooms now)) ∧
      (0.7 < complexity → 0 < blooms →
        updateFromGarden s complexity blooms now =
          addOrUpdateEmotion (addOrUpdateEmotion s (aweEmotion now))
            (joyEmotion blooms now)) ∧
      ((joyEmotion blooms now).valence = min ((blooms : ℚ) * 0.2) 0.9 ∧
        (joyEmotion blooms now).arousal = min ((blooms : ℚ) * 0.2) 0.9 * 0.8 ∧
        (aweEmotion now).valence = 0.8 ∧ (aweEmotion now).arousal = 0.7) ∧
      ((updateFromGarden freshA 0.8 3 1).current_emotions =
          initialEmotions 0 ++ [aweEmotion 1, joyEmotion 3 1] ∧
        (joyEmotion 3 1).valence = 0.6 ∧
        getDominantEmotion (updateFromGarden freshA 0.8 3 1).current_emotions =
          some (aweEmotion 1) ∧
        scoreOf (aweEmotion 1) = 0.76 ∧ scoreOf (joyEmotion 3 1) = 0.552) := by
  intro s complexity blooms now
  refine ⟨?_, ?_, ?_, ?_, ?_, ?_⟩
  · intro hc hb
    rw [updateFromGarden]
    rw [if_neg (not_lt.mpr hc), if_neg (not_lt.mpr hb)]
  · intro hc hb
    rw [updateFromGarden]
    rw [if_pos hc, if_neg (not_lt.mpr hb)]
  · intro hc hb
    rw [updateFromGarden]
    rw [if_neg (not_lt.mpr hc), if_pos hb]
  · intro hc hb
    rw [updateFromGarden]
    rw [if_pos hc, if_pos hb]
  · exact ⟨rfl, rfl, rfl, rfl⟩
  · have ha : addOrUpdateEmotion freshA (aweEmotion 1) =
        { freshA with current_emotions :=
            freshA.current_emotions ++ [aweEmotion 1] } :=
      addOrUpdateEmotion_insert _ _
        (by intro x hx
            simp [freshA, mkCore, initialEmotions] at hx
            rcases hx with h | h <;> subst h <;> simp [aweEmotion])
        (by simp [freshA, mkCore, initialEmotions])
    have hj : addOrUpdateEmotion (addOrUpdateEmotion freshA (aweEmotion 1))
        (joyEmotion 3 1) =
        { addOrUpdateEmotion freshA (aweEmotion 1) with current_emotions :=
            (addOrUpdateEmotion freshA (aweEmotion 1)).current_emotions ++
              [joyEmotion 3 1] } :=
      addOrUpdateEmotion_insert _ _
        (by intro x hx
            rw [ha] at hx
            simp [freshA, mkCore, initialEmotions] at hx
            rcases hx with h | h | h <;> subst h <;>
              simp [aweEmotion, joyEmotion])
        (by rw [ha]; simp [freshA, mkCore, initialEmotions])
    have hemos : (updateFromGarden freshA 0.8 3 1).current_emotions =
        initialEmotions 0 ++ [aweEmotion 1, joyEmotion 3 1] := by
      rw [updateFromGarden, if_pos (by norm_num), if_pos (by norm_num), hj, ha]
      simp [freshA, mkCore]
    refine ⟨hemos, by norm_num [joyEmotion], ?_, ?_, ?_⟩
    · rw [hemos]
      simp only [getDominantEmotion, initialEmotions, List.cons_append,
        List.nil_append]
      norm_num [scoreOf, absQ, aweEmotion, joyEmotion]
    · norm_num [scoreOf, absQ, aweEmotion]
    · norm_num [scoreOf, absQ, joyEmotion]

/-- Witness for C7: with complexity and bloom count below both thresholds
nothing is applied. -/
theorem claim_c7_garden_witness :
    updateFromGarden freshA 0 0 0 = freshA :=
  (claim_c7_garden freshA 0 0 0).1 (by norm_num) (by norm_num)

/-! ### C8: load error handling; C10: entropy is never read back -/

theorem restoreEmotions_all_ok (rs : List RawEmotion)
    (h : ∀ r ∈ rs, (readEmotion r).isSome) :
    (restoreEmotions rs).1.length = rs.length ∧ (restoreEmotions rs).2 = true := by
  induction rs with
  | nil => exact ⟨rfl, rfl⟩
  | cons r rest ih =>
    cases hr : readEmotion r with
    | none =>
      have := h r (List.mem_cons_self _ _)
      rw [hr] at this
      exact absurd this (by simp)
    | some e =>
      obtain ⟨ihl, ihs⟩ := ih (fun x hx => h x (List.mem_cons_of_mem _ hx))
      rw [restoreEmotions, hr]
      simp only [List.length_cons]
      exact ⟨by rw [ihl], ihs⟩

theorem restoreEmotions_fails (rs : List RawEmotion) (r : RawEmotion)
    (hmem : r ∈ rs) (hr : readEmotion r = none) :
    (restoreEmotions rs).2 = false := by
  induction rs with
  | nil => simp at hmem
  | cons x rest ih =>
    cases hx : readEmotion x with
    | none => rw [restoreEmotions, hx]
    | some e =>
      rw [restoreEmotions, hx]
      simp only
      rcases List.mem_cons.mp hmem with h | h
      · subst h; rw [hx] at hr; exact absurd hr (by simp)
      · exact ih h

theorem loadState_parsed_emotions (s : EmotionalCore) (raw : RawState) :
    (loadState s (.parsed raw)).current_emotions =
      (restoreEmotions (raw.current_emotions.getD [])).1 := by
  simp only [loadState]
  by_cases h : (restoreEmotions (raw.current_emotions.getD [])).2 <;> simp [h]

theorem loadState_entropy (f : EmotionalCore) (input : LoadInput) :
    (loadState f input).emotional_entropy = f.emotional_entropy := by
  cases input with
  | missing => rfl
  | corrupt => rfl
  | parsed raw =>
    simp only [loadState]
    by_cases h : (restoreEmotions (raw.current_emotions.getD [])).2 <;> simp [h]

theorem getEmotionalState_entropy (s : EmotionalCore) :
    (getEmotionalState s).emotional_entropy = s.emotional_entropy := by
  cases hd : getDominantEmotion s.current_emotions <;> simp [getEmotionalState, hd]



/-- C8 counterexample: loading a file whose emotion record lacks the
required `valence` key does NOT recover that record with a default — the
`KeyError` aborts restoration after `current_emotions` was already
cleared, so the freshly-constructed state's two default impulses are lost
and nothing replaces them. -/
theorem claim_c8_counterexample :
    (loadState freshA (.parsed badRaw)).current_emotions = [] ∧
    freshA.current_emotions.length = 2 := by
  constructor
  · rw [loadState_parsed_emotions]
    rfl
  · rfl

/-- C8 (amended): `load` never raises to the caller: a missing or
unparsable file leaves the in-memory state untouched; missing top-level
keys default to empty lists and a missing `dominance` key defaults to 0.5;
but an emotion record missing a required key (`name`, `valence`,
`arousal`, `source`, `timestamp`) is not recovered — restoration aborts
with the error caught, the impulse list left as the restored prefix
(cleared, in the worst case) and the memory history untouched.  When every
record is complete, all of them are restored. -/
theorem claim_c8_load_amended :
    ∀ (s : EmotionalCore) (raw : RawState),
      (loadState s .missing = s) ∧
      (loadState s .corrupt = s) ∧
      (raw.current_emotions = none → raw.memory_history = none →
        loadState s (.parsed raw) =
          { s with
            current_emotions := []
            memory := { s.memory with emotional_history := [] } }) ∧
      (∀ n v a src t,
        readEmotion ⟨some n, some v, some a, none, some src, some t⟩ =
          some ⟨n, v, a, 0.5, src, t, 0.95⟩) ∧
      (∀ rs, raw.current_emotions = some rs →
        (∀ r ∈ rs, (readEmotion r).isSome) →
        (loadState s (.parsed raw)).current_emotions.length = rs.length) ∧
      (∀ rs r, raw.current_emotions = some rs → r ∈ rs →
        readEmotion r = none →
        (loadState s (.parsed raw)).memory = s.memory) := by
  intro s raw
  refine ⟨rfl, rfl, ?_, ?_, ?_, ?_⟩
  · intro hce hmh
    simp only [loadState, hce, hmh]
    rfl
  · intro n v a src t
    rfl
  · intro rs hrs hok
    rw [loadState_parsed_emotions, hrs]
    exact (restoreEmotions_all_ok rs hok).1
  · intro rs r hrs hmem hr
    have hfail : (restoreEmotions (raw.current_emotions.getD [])).2 = false := by
      rw [hrs]
      exact restoreEmotions_fails rs r hmem hr
    simp only [loadState, hfail]
    rfl

/-- Witness for C8 (amended): loading a parsed file with both top-level
keys missing falls back to empty impulse and history lists. -/
theorem claim_c8_load_amended_witness :
    loadState freshA (.parsed emptyRaw) =
      { freshA with
        current_emotions := []
        memory := { freshA.memory with emotional_history := [] } } :=
  (claim_c8_load_amended freshA emptyRaw).2.2.1 rfl rfl

/-- C10: `load_state` never reads the persisted `emotional_entropy` back:
after loading any input (including a file just written by `save_state`,
which does persist the field), the instance keeps its construction-time
entropy, and the state snapshot reports that same construction-time value,
not the stored one. -/
theorem claim_c10_entropy_not_restored :
    ∀ (s f : EmotionalCore) (input : LoadInput) (now : ℚ),
      ((loadState f input).emotional_entropy = f.emotional_entropy) ∧
      ((saveState s now).emotional_entropy = s.emotional_entropy) ∧
      ((getEmotionalState (loadState f input)).emotional_entropy =
        f.emotional_entropy) := by
  intro s f input now
  refine ⟨loadState_entropy f input, rfl, ?_⟩
  rw [getEmotionalState_entropy, loadState_entropy]

/-! ### C5: save/load round trip -/

theorem restoreEmotions_roundtrip (es : List EmergentEmotion) :
    restoreEmotions (es.map (fun e => rawOfSavedEmotion (savedOfEmotion e))) =
      (es.map reloadEmo, true) := by
  induction es with
  | nil => rfl
  | cons e rest ih =>
    have hr : readEmotion (rawOfSavedEmotion (savedOfEmotion e)) =
        some (reloadEmo e) := rfl
    simp only [List.map_cons, restoreEmotions, hr, ih]

theorem loadState_roundtrip (s f : EmotionalCore) (now : ℚ) :
    loadState f (.parsed (rawOfSaved (saveState s now))) =
      { f with
        current_emotions := s.current_emotions.map reloadEmo
        memory := { f.memory with
                    emotional_history :=
                      s.memory.emotional_history.drop
                        (s.memory.emotional_history.length - 20) } } := by
  have harg : (rawOfSaved (saveState s now)).current_emotions.getD [] =
      s.current_emotions.map (fun e => rawOfSavedEmotion (savedOfEmotion e)) := by
    rw [rawOfSaved, saveState]
    simp only [Option.getD_some]
    rw [List.map_map]
    rfl
  simp only [loadState, harg, restoreEmotions_roundtrip]
  rfl

theorem getDominantEmotion_map (g : EmergentEmotion → EmergentEmotion)
    (hg : ∀ e, scoreOf (g e) = scoreOf e) (es : List EmergentEmotion) :
    getDominantEmotion (es.map g) = (getDominantEmotion es).map g := by
  induction es with
  | nil => rfl
  | cons e rest ih =>
    simp only [List.map_cons, getDominantEmotion, ih]
    cases hd : getDominantEmotion rest with
    | none => simp
    | some d =>
      simp only [Option.map_some']
      rw [hg e, hg d]
      by_cases hs : scoreOf e < scoreOf d <;> simp [hs]

theorem getMoodBias_congr (m1 m2 : EmotionalMemory)
    (hwt : m1.memory_weight = m2.memory_weight)
    (hh : m1.emotional_history = m2.emotional_history) :
    getMoodBias m1 = getMoodBias m2 := by
  rw [getMoodBias, getMoodBias, hwt, hh]

theorem getMoodBias_drop20 (m : EmotionalMemory) :
    getMoodBias { m with emotional_history :=
      m.emotional_history.drop (m.emotional_history.length - 20) } =
      getMoodBias m := by
  by_cases h : m.emotional_history = []
  · simp [getMoodBias, h]
  · have hlen : 0 < m.emotional_history.length := List.length_pos.mpr h
    have htr : m.emotional_history.drop (m.emotional_history.length - 20) ≠ [] := by
      intro hnil
      rw [List.drop_eq_nil_iff] at hnil
      omega
    have hrec : (m.emotional_history.drop (m.emotional_history.length - 20)).drop
        ((m.emotional_history.drop (m.emotional_history.length - 20)).length - 10) =
        m.emotional_history.drop (m.emotional_history.length - 10) := by
      rw [List.drop_drop]
      congr 1
      rw [List.length_drop]
      omega
    rw [getMoodBias, getMoodBias, if_neg htr, if_neg h]
    simp only [hrec]

/-- C5 counterexample: saving a core with entropy 0.2 and loading the
file into a freshly constructed core with entropy 0.3 changes the
`snapshot()` output — its `emotional_entropy` field keeps the loading
instance's construction-time draw, so the round trip is not
snapshot-identical. -/
theorem claim_c5_counterexample :
    getEmotionalState (loadState freshB (.parsed (rawOfSaved (saveState freshA 0)))) ≠
      getEmotionalState freshA := by
  intro h
  have h2 := congrArg EmotionalStateView.emotional_entropy h
  rw [getEmotionalState_entropy, getEmotionalState_entropy, loadState_entropy] at h2
  norm_num [freshA, freshB, mkCore] at h2

/-- C5 (amended): after `load(save(state))` into a loading instance with
the same memory weight, the dominant-impulse selection is preserved
(impulses come back verbatim except `decay_rate`, reset to 0.95) and the
`snapshot()` output agrees in every field except `emotional_entropy`,
which keeps the loading instance's construction-time value; the history
truncation to the last 20 entries leaves the mood bias unchanged. -/
theorem claim_c5_roundtrip_amended :
    ∀ (s f : EmotionalCore) (now : ℚ),
      f.memory.memory_weight = s.memory.memory_weight →
      (getDominantEmotion
          (loadState f (.parsed (rawOfSaved (saveState s now)))).current_emotions =
        (getDominantEmotion s.current_emotions).map reloadEmo ∧
      getEmotionalState (loadState f (.parsed (rawOfSaved (saveState s now)))) =
        { getEmotionalState s with emotional_entropy := f.emotional_entropy }) := by
  intro s f now hw
  rw [loadState_roundtrip]
  have hdom : getDominantEmotion (s.current_emotions.map reloadEmo) =
      (getDominantEmotion s.current_emotions).map reloadEmo :=
    getDominantEmotion_map reloadEmo (fun e => rfl) s.current_emotions
  have hbias2 : getMoodBias { f.memory with
      emotional_history := s.memory.emotional_history.drop
        (s.memory.emotional_history.length - 20) } = getMoodBias s.memory := by
    have h1 : getMoodBias { f.memory with
        emotional_history := s.memory.emotional_history.drop
          (s.memory.emotional_history.length - 20) } =
        getMoodBias { s.memory with
          emotional_history := s.memory.emotional_history.drop
            (s.memory.emotional_history.length - 20) } :=
      getMoodBias_congr _ _ hw rfl
    rw [h1, getMoodBias_drop20]
  have hviews : (s.current_emotions.map reloadEmo).map
      (fun e => (⟨e.name, e.valence, e.arousal, e.emergence_source⟩ : EmotionView)) =
      s.current_emotions.map
        (fun e => (⟨e.name, e.valence, e.arousal, e.emergence_source⟩ : EmotionView)) := by
    rw [List.map_map]
    rfl
  refine ⟨hdom, ?_⟩
  cases hd : getDominantEmotion s.current_emotions with
  | none =>
    have hdom2 : getDominantEmotion (s.current_emotions.map reloadEmo) = none := by
      rw [hdom, hd]
      rfl
    simp [getEmotionalState, hd, hdom2, hbias2, hviews]
  | some d =>
    have hdom2 : getDominantEmotion (s.current_emotions.map reloadEmo) =
        some (reloadEmo d) := by
      rw [hdom, hd]
      rfl
    simp [getEmotionalState, hd, hdom2, hbias2, hviews, reloadEmo]

/-- Witness for C5 (amended): a concrete round trip between two freshly
constructed cores with different entropy draws. -/
theorem claim_c5_roundtrip_amended_witness :
    getDominantEmotion
        (loadState freshB (.parsed (rawOfSaved (saveState freshA 0)))).current_emotions =
      (getDominantEmotion freshA.current_emotions).map reloadEmo ∧
    getEmotionalState (loadState freshB (.parsed (rawOfSaved (saveState freshA 0)))) =
      { getEmotionalState freshA with emotional_entropy := freshB.emotional_entropy } :=
  claim_c5_roundtrip_amended freshA freshB 0 rfl
